import Mathlib

/-!
Shallow embedding of the pointer-tracking engine of `arodic/PointerEvents`
(`src/PointerEvents.js`), together with theorems checking the repository's
natural-language specification against it.

Conventions of the embedding:

* JavaScript numbers are modelled as exact rationals (`ℚ`); every operation the
  engine performs on coordinates (addition, subtraction, multiplication,
  comparison) is exact arithmetic here, so `ℚ` is a faithful carrier for the
  algebraic properties at stake.
* JavaScript object identity is modelled by an allocation tag `oid` on each
  `Pointer`: every `new Pointer(...)` allocation receives a fresh `oid`,
  threaded through the API as an allocation counter.  Two pointers are the
  same object iff their `oid`s coincide.
* DOM-specific collaborators (`getBoundingClientRect`, the ancestor walk of
  `isTouchInTarget`) are modelled by their results: a `Rect` value and an
  `inTarget` flag carried by each raw touch sample.
-/

set_option autoImplicit false

namespace PointerEventsSpec

/-- Model of the `Pointer` class (src/PointerEvents.js, lines 175-234).
Field defaults are the constructor's initializations; the modifier flags
(`altKey`, ..., `shiftKey`) are absent (`undefined`, hence falsy) on a freshly
constructed object and are modelled as `false` until assigned.  `oid` models
JavaScript object identity (see module docstring). -/
structure Pointer where
  oid : Nat
  pointerID : Int
  type : String
  pointerType : String
  clientX : ℚ := 0
  clientY : ℚ := 0
  x : ℚ := 0
  y : ℚ := 0
  startX : ℚ := 0
  startY : ℚ := 0
  movementX : ℚ := 0
  movementY : ℚ := 0
  distanceX : ℚ := 0
  distanceY : ℚ := 0
  button : Int := -1
  buttons : Nat := 0
  altKey : Bool := false
  ctrlKey : Bool := false
  metaKey : Bool := false
  shiftKey : Bool := false
  deriving DecidableEq, Repr

/-- Squared Euclidean distance between two pointers' positions.  The source
(`getClosest`, lines 320-322) computes `Math.sqrt(dx*dx + dy*dy)` and only ever
compares distances; the square root is strictly monotone on nonnegative reals,
so comparing squared distances is equivalent and keeps the model computable. -/
def dist2 (p q : Pointer) : ℚ :=
  (p.x - q.x) * (p.x - q.x) + (p.y - q.y) * (p.y - q.y)

/-- Accumulator scan of `getClosest` (lines 316-329): the pair
`(index, pointer)` of the best candidate so far.  The source also carries
`closestDist`, initially `Infinity`; `none` models the initial state, and the
carried distance always equals the distance of the carried pointer, so it is
recomputed rather than cached. -/
def closestAux (p : Pointer) : Option (Nat × Pointer) → Nat → List Pointer → Option (Nat × Pointer)
  | closest, _, [] => closest
  | none, i, q :: qs => closestAux p (some (i, q)) (i + 1) qs
  | some (j, c), i, q :: qs =>
      if dist2 p q < dist2 p c then closestAux p (some (i, q)) (i + 1) qs
      else closestAux p (some (j, c)) (i + 1) qs

/-- Model of `getClosest(pointer, pointers)` (lines 316-329).  The JavaScript
function returns the closest array element (an object); callers use object
identity (`!==`, `indexOf`) on the result, and array elements are pairwise
distinct objects in every reachable state, so the model returns the element's
index alongside the element. -/
def getClosest (p : Pointer) (ps : List Pointer) : Option (Nat × Pointer) :=
  closestAux p none 0 ps

/-- Structural-recursion reformulation of `getClosest`, easier to reason about;
`getClosest_eq_closestIdx` proves it equal to the accumulator form.  A later
element replaces the current best only when strictly closer, so the first of
several equidistant minima wins. -/
def closestIdx (p : Pointer) : List Pointer → Option (Nat × Pointer)
  | [] => none
  | q :: qs =>
      match closestIdx p qs with
      | none => some (0, q)
      | some (j, r) => if dist2 p r < dist2 p q then some (j + 1, r) else some (0, q)

/-- Model of `Pointer.prototype.update(previous)` (lines 225-233), the rebase
step applied to a current contact with its matched predecessor.  The source
assigns `this.startX = previous.startX` before computing
`this.distanceX = this.x - this.startX`, hence distance is measured from the
predecessor's origin. -/
def Pointer.update (p previous : Pointer) : Pointer :=
  { p with
    pointerID := previous.pointerID,
    startX := previous.startX, startY := previous.startY,
    movementX := p.x - previous.x, movementY := p.y - previous.y,
    distanceX := p.x - previous.startX, distanceY := p.y - previous.startY }

/-- Model of `Pointer.prototype.clone()` (lines 194-209).  The new object gets
a fresh `oid`.  Line 203 of the source reads
`pointer.movementXY = this.movementXY;`: it stores an undefined value in a
stray `movementXY` property, so the clone's `movementY` keeps the constructor
value `0`; the modifier flags, assigned only as expando properties during
sample capture, are likewise not copied by the constructor-plus-field list. -/
def Pointer.clone (p : Pointer) (oid : Nat) : Pointer :=
  { oid := oid
    pointerID := p.pointerID
    type := p.type
    pointerType := p.pointerType
    clientX := p.clientX
    clientY := p.clientY
    x := p.x
    y := p.y
    startX := p.startX
    startY := p.startY
    movementX := p.movementX
    distanceX := p.distanceX
    distanceY := p.distanceY
    button := p.button
    buttons := p.buttons }

/-- One raw touch sample.  `inTarget` records the result of
`isTouchInTarget(touch, target)` (lines 306-313), a DOM ancestor walk that the
embedding models by its outcome. -/
structure Touch where
  clientX : ℚ
  clientY : ℚ
  inTarget : Bool
  deriving DecidableEq, Repr

/-- Result of `target.getBoundingClientRect()`: only `x` and `y` are read by
`PointerArray.update`. -/
structure Rect where
  x : ℚ
  y : ℚ
  deriving DecidableEq, Repr

/-- One raw device event, as read by `PointerArray.update` (lines 243-297).
`touches = some ts` models a touch event carrying the list `ts`;
`touches = none` models a mouse event, whose own `clientX`/`clientY` are the
single sample.  `buttons` models `event.buttons || 0`: an absent field is 0. -/
structure RawEvent where
  touches : Option (List Touch)
  clientX : ℚ := 0
  clientY : ℚ := 0
  buttons : Nat := 0
  altKey : Bool := false
  ctrlKey : Bool := false
  metaKey : Bool := false
  shiftKey : Bool := false
  deriving DecidableEq, Repr

/-- Sample list scanned by the capture loop:
`let touches = event.touches ? event.touches : [event]` (line 255).  The
synthetic mouse sample is marked `inTarget := true`; the source's filter
condition `isTouchInTarget(touches[i], this.target) || event.touches ===
undefined` (line 261) accepts a mouse sample regardless of the ancestor walk,
which the capture loop below mirrors by also testing `touches.isNone`. -/
def RawEvent.samples (event : RawEvent) : List Touch :=
  match event.touches with
  | some ts => ts
  | none => [{ clientX := event.clientX, clientY := event.clientY, inTarget := true }]

/-- Capture loop of `PointerArray.update` (lines 259-280): one fresh `Pointer`
per surviving sample, with sequential provisional identity `id` starting at 0
and a fresh allocation tag `oid` per `new Pointer`.  The button ordinal
(lines 270-272) has no final `else`; the constructor default `-1` survives for
any other bitmask, which the last branch writes out explicitly. -/
def captureGo (event : RawEvent) (type pointerType : String) (rect : Rect) :
    List Touch → Int → Nat → List Pointer
  | [], _, _ => []
  | t :: ts, id, oid =>
    if t.inTarget || event.touches.isNone then
      { oid := oid
        pointerID := id
        type := type
        pointerType := pointerType
        clientX := t.clientX
        clientY := t.clientY
        x := t.clientX - rect.x
        y := t.clientY - rect.y
        startX := t.clientX - rect.x
        startY := t.clientY - rect.y
        buttons := event.buttons
        button :=
          if event.buttons = 1 ∨ event.buttons = 3 ∨ event.buttons = 5 ∨ event.buttons = 7 then 1
          else if event.buttons = 2 ∨ event.buttons = 6 then 2
          else if event.buttons = 4 then 3
          else -1
        altKey := event.altKey
        ctrlKey := event.ctrlKey
        metaKey := event.metaKey
        shiftKey := event.shiftKey } :: captureGo event type pointerType rect ts (id + 1) (oid + 1)
    else captureGo event type pointerType rect ts id oid

/-- One iteration of the matching loop (lines 282-291) at current index `i`.
The JavaScript mutual check `getClosest(closest, this) !== this[i]` and the
splice position `this.previous.indexOf(closest)` compare object identity;
current-array elements are pairwise distinct fresh objects and the previous
buffer holds pairwise distinct objects from the prior frame, so object
identity coincides with position, and the model compares and erases by the
index that `getClosest` reports.  The step returns the updated current array,
the updated previous buffer, and a log entry: the consumed predecessor
together with the previous buffer as it stood when the match was accepted
(`none` when no match was accepted). -/
def matchStep (live prevRem : List Pointer) (i : Nat) :
    List Pointer × List Pointer × Option (Pointer × List Pointer) :=
  match live[i]? with
  | none => (live, prevRem, none)
  | some ci =>
    match getClosest ci prevRem with
    | none => (live, prevRem, none)
    | some (j, closest) =>
      if (getClosest closest live).map Prod.fst = some i then
        (live.set i (ci.update closest), prevRem.eraseIdx j, some (closest, prevRem))
      else (live, prevRem, none)

/-- The matching loop `for (let i = 0; i < this.length; i++) ...`
(lines 282-291), running `n` iterations from index `i`.  `this.length` does
not change during the loop (only `set` is applied to the current array), so
iterating a fixed count is faithful. -/
def matchGo (live prevRem : List Pointer) (i : Nat) :
    Nat → List Pointer × List Pointer × List (Option (Pointer × List Pointer))
  | 0 => (live, prevRem, [])
  | n + 1 =>
    let r := matchStep live prevRem i
    let rest := matchGo r.1 r.2.1 (i + 1) n
    (rest.1, rest.2.1, r.2.2 :: rest.2.2)

/-- One complete matching round (lines 282-291): every current index once, in
order, against the previous buffer. -/
def matchLoop (cur prev : List Pointer) :
    List Pointer × List Pointer × List (Option (Pointer × List Pointer)) :=
  matchGo cur prev 0 cur.length

/-- Predecessors consumed by the matches recorded in a matcher log. -/
def consumed (log : List (Option (Pointer × List Pointer))) : List Pointer :=
  log.filterMap (fun o => o.map Prod.fst)

/-- Contacts captured by one update cycle: none when the `remove` flag is set
(line 260's `if (!remove)` guard), otherwise the capture loop over the event's
samples, with `pointerType` `'touch'` or `'mouse'` by line 256. -/
def capturedContacts (event : RawEvent) (type : String) (remove : Bool) (rect : Rect)
    (oid : Nat) : List Pointer :=
  if remove then []
  else captureGo event type (if event.touches.isSome then "touch" else "mouse") rect
    event.samples 0 oid

/-- Model of the `PointerArray` state: the current contacts (the array
contents), plus the `previous` and `removed` buffers (lines 236-242). -/
structure PointerArray where
  current : List Pointer
  previous : List Pointer := []
  removed : List Pointer := []
  deriving DecidableEq, Repr

/-- Model of `PointerArray.prototype.update(event, type, remove)`
(lines 243-297), with the matcher log and the advanced allocation counter as
extra outputs.  Steps, in source order: move the current contacts into the
previous buffer and clear current and removed (lines 245-251); if `remove` is
not set, capture one contact per surviving raw sample (lines 260-280); run the
matching loop (lines 282-291; with `remove` set the captured list is empty, so
the loop body never runs, exactly as the source's `if (!remove)` guard); pop
every leftover previous contact into `removed`, in reverse order, leaving
`previous` empty (lines 293-296). -/
def PointerArray.updateFull (arr : PointerArray) (event : RawEvent) (type : String)
    (remove : Bool) (rect : Rect) (oid : Nat) :
    PointerArray × List (Option (Pointer × List Pointer)) × Nat :=
  let previous := arr.current
  let current0 := capturedContacts event type remove rect oid
  let res := matchLoop current0 previous
  ({ current := res.1, previous := [], removed := res.2.1.reverse },
    res.2.2, oid + current0.length)

/-- Model of `PointerArray.prototype.update`, state output only. -/
def PointerArray.update (arr : PointerArray) (event : RawEvent) (type : String)
    (remove : Bool) (rect : Rect) (oid : Nat) : PointerArray :=
  (arr.updateFull event type remove rect oid).1

/-- Positions of a pointer, the only data `getClosest` reads. -/
def xyOf (p : Pointer) : ℚ × ℚ := (p.x, p.y)

/-- Concrete geometry: previous-frame contact at (0,0) with identity 100. -/
def pA : Pointer :=
  { oid := 0, pointerID := 100, type := "pointerdown", pointerType := "touch",
    clientX := 0, clientY := 0, x := 0, y := 0, startX := 0, startY := 0 }

/-- Concrete geometry: previous-frame contact at (10,0) with identity 200. -/
def pB : Pointer :=
  { oid := 1, pointerID := 200, type := "pointerdown", pointerType := "touch",
    clientX := 10, clientY := 0, x := 10, y := 0, startX := 10, startY := 0 }

/-- Rect with zero offset, so client and surface coordinates coincide. -/
def rect0 : Rect := { x := 0, y := 0 }

/-- Touch event with new samples at (1,0) and (9,0). -/
def evMove : RawEvent :=
  { touches := some [{ clientX := 1, clientY := 0, inTarget := true },
      { clientX := 9, clientY := 0, inTarget := true }] }

/-- Contact set holding the two previous contacts of the matching scenario. -/
def arrAB : PointerArray := { current := [pA, pB] }

/-- Concrete single previous contact at (10,0) with identity 0. -/
def pSingle : Pointer :=
  { oid := 0, pointerID := 0, type := "pointerdown", pointerType := "touch",
    clientX := 10, clientY := 0, x := 10, y := 0, startX := 10, startY := 0 }

/-- Contact set holding only `pSingle`. -/
def arrSingle : PointerArray := { current := [pSingle] }

/-- Touch event with three samples at (100,100), (200,200) and (10,0); only
the third is near the single previous contact. -/
def evThree : RawEvent :=
  { touches := some [{ clientX := 100, clientY := 100, inTarget := true },
      { clientX := 200, clientY := 200, inTarget := true },
      { clientX := 10, clientY := 0, inTarget := true }] }

/-- Listener registry of the `PointerEvents` dispatcher: the lazily created
`this._listeners` object keyed by event name (lines 146-172).  An absent key
or absent `_listeners` object both behave as the empty list.  Handlers are
abstract values of a type with decidable equality, modelling the
function-object identity that `indexOf` uses. -/
def Listeners (α : Type) : Type := String → List α

/-- Registry with no listeners: no `_listeners` object created yet. -/
def emptyListeners (α : Type) : Listeners α := fun _ => []

/-- Model of `addEventListener(type, listener)` (lines 146-152): the listener
is appended to the list for `type` unless `indexOf` finds it already there. -/
def addEventListener {α : Type} [DecidableEq α] (ls : Listeners α) (type : String)
    (listener : α) : Listeners α :=
  fun t =>
    if t = type then
      if listener ∈ ls type then ls type else ls type ++ [listener]
    else ls t

/-- Model of `dispatchEvent(event)` (lines 164-172) for an event named `type`.
A running handler may mutate the registry (for instance call
`addEventListener`); the parameter `eff` gives each handler's effect on the
registry.  The source iterates over `this._listeners[event.type].slice(0)`, a
copy taken when dispatch begins; the fold applies each handler's effect in
order and also returns the invocation log. -/
def dispatchEvent {α : Type} (eff : α → Listeners α → Listeners α) (ls : Listeners α)
    (type : String) : Listeners α × List α :=
  let array := ls type
  array.foldl (fun acc h => (eff h acc.1, acc.2 ++ [h])) (ls, [])

/-- The contacts captured from `evMove` in the mutual-nearest scenario. -/
def curMove : List Pointer := capturedContacts evMove "pointermove" false rect0 2

/-- Concrete pointer with nonzero kinematics, for the clone scenario. -/
def pMoved : Pointer :=
  { oid := 0, pointerID := 7, type := "pointermove", pointerType := "mouse",
    clientX := 4, clientY := 5, x := 4, y := 5, startX := 0, startY := 0,
    movementX := 4, movementY := 5, distanceX := 4, distanceY := 5 }

/-- Query pointer at the origin for the tie-break scenario. -/
def pQuery : Pointer :=
  { oid := 10, pointerID := 0, type := "pointerhover", pointerType := "mouse", x := 0, y := 0 }

/-- First candidate, at (3,4): distance 5 from the origin. -/
def pTie1 : Pointer :=
  { oid := 11, pointerID := 1, type := "pointerhover", pointerType := "mouse", x := 3, y := 4 }

/-- Second candidate, at (5,0): also distance 5 from the origin. -/
def pTie2 : Pointer :=
  { oid := 12, pointerID := 2, type := "pointerhover", pointerType := "mouse", x := 5, y := 0 }

/-- Mouse event at (5,5) with the primary button held. -/
def evMouse : RawEvent := { touches := none, clientX := 5, clientY := 5, buttons := 1 }

/-- Contact set with no contacts. -/
def arrEmpty : PointerArray := { current := [] }

/-- The contact that capturing `evMouse` produces. -/
def cMouse : Pointer :=
  { oid := 0, pointerID := 0, type := "pointerdown", pointerType := "mouse",
    clientX := 5, clientY := 5, x := 5, y := 5, startX := 5, startY := 5,
    button := 1, buttons := 1 }

/-- Witness registry: the single handler numbered 0 on `pointermove`. -/
def lsW : Listeners Nat := addEventListener (emptyListeners Nat) "pointermove" 0

/-- Witness effect: every running handler registers the new handler 5. -/
def effW : Nat → Listeners Nat → Listeners Nat :=
  fun _ s => addEventListener s "pointermove" 5

lemma closestAux_some (p : Pointer) (qs : List Pointer) : ∀ (i j : Nat) (c : Pointer),
    closestAux p (some (j, c)) i qs =
      (match closestIdx p qs with
       | none => some (j, c)
       | some (m, r) => if dist2 p r < dist2 p c then some (i + m, r) else some (j, c)) := by
  induction qs with
  | nil => intro i j c; rfl
  | cons q qs ih =>
    intro i j c
    show (if dist2 p q < dist2 p c then closestAux p (some (i, q)) (i + 1) qs
          else closestAux p (some (j, c)) (i + 1) qs) = _
    by_cases h1 : dist2 p q < dist2 p c
    · rw [if_pos h1, ih]
      cases hq : closestIdx p qs with
      | none =>
        simp only [closestIdx, hq]
        try dsimp only
        rw [if_pos h1, Nat.add_zero]
      | some mr =>
        obtain ⟨m, r⟩ := mr
        simp only [closestIdx, hq]
        try dsimp only
        by_cases h2 : dist2 p r < dist2 p q
        · rw [if_pos h2, if_pos h2]
          try dsimp only
          rw [if_pos (lt_trans h2 h1), show i + 1 + m = i + (m + 1) from by omega]
        · rw [if_neg h2, if_neg h2]
          try dsimp only
          rw [if_pos h1, Nat.add_zero]
    · rw [if_neg h1, ih]
      cases hq : closestIdx p qs with
      | none =>
        simp only [closestIdx, hq]
        try dsimp only
        rw [if_neg h1]
      | some mr =>
        obtain ⟨m, r⟩ := mr
        simp only [closestIdx, hq]
        try dsimp only
        by_cases h2 : dist2 p r < dist2 p q
        · rw [if_pos h2]
          try dsimp only
          by_cases h4 : dist2 p r < dist2 p c
          · rw [if_pos h4, if_pos h4, show i + 1 + m = i + (m + 1) from by omega]
          · rw [if_neg h4, if_neg h4]
        · rw [if_neg h2]
          try dsimp only
          rw [if_neg h1,
            if_neg (fun h => h1 (lt_of_le_of_lt (not_lt.mp h2) h))]

lemma getClosest_eq_closestIdx (p : Pointer) (ps : List Pointer) :
    getClosest p ps = closestIdx p ps := by
  cases ps with
  | nil => rfl
  | cons q qs =>
    show closestAux p (some (0, q)) 1 qs = _
    rw [closestAux_some]
    cases hq : closestIdx p qs with
    | none =>
      simp only [closestIdx, hq]
      try dsimp only
    | some mr =>
      obtain ⟨m, r⟩ := mr
      simp only [closestIdx, hq]
      try dsimp only
      by_cases h2 : dist2 p r < dist2 p q
      · rw [if_pos h2, if_pos h2, Nat.add_comm]
      · rw [if_neg h2, if_neg h2]

lemma closestIdx_cons_isSome (p b : Pointer) (m : List Pointer) :
    (closestIdx p (b :: m)).isSome := by
  cases h : closestIdx p m with
  | none => simp [closestIdx, h]
  | some jr =>
    obtain ⟨j, r⟩ := jr
    by_cases h2 : dist2 p r < dist2 p b <;> simp [closestIdx, h, h2]

lemma closestIdx_eq_none {p : Pointer} {ps : List Pointer}
    (h : closestIdx p ps = none) : ps = [] := by
  cases ps with
  | nil => rfl
  | cons b m =>
    have := closestIdx_cons_isSome p b m
    rw [h] at this
    exact absurd this (by simp)

/-- The scan of `getClosest` returns the first index achieving the minimum
distance: the result is a member, is no farther than any member, and is
strictly closer than every member at a smaller index. -/
lemma closestIdx_spec (p : Pointer) : ∀ (ps : List Pointer) (k : Nat) (q : Pointer),
    closestIdx p ps = some (k, q) →
    ps[k]? = some q ∧
    (∀ (m : Nat) (r : Pointer), ps[m]? = some r → dist2 p q ≤ dist2 p r) ∧
    (∀ (m : Nat), m < k → ∀ (r : Pointer), ps[m]? = some r → dist2 p q < dist2 p r) := by
  intro ps
  induction ps with
  | nil => intro k q h; simp [closestIdx] at h
  | cons a l ih =>
    intro k q h
    simp only [closestIdx] at h
    cases hl : closestIdx p l with
    | none =>
      rw [hl] at h
      dsimp only at h
      simp only [Option.some.injEq, Prod.mk.injEq] at h
      obtain ⟨rfl, rfl⟩ := h
      have hnil : l = [] := closestIdx_eq_none hl
      subst hnil
      refine ⟨by simp, ?_, ?_⟩
      · intro m r hm
        cases m with
        | zero => simp at hm; subst hm; exact le_refl _
        | succ n => simp at hm
      · intro m hm r hr
        omega
    | some jr =>
      obtain ⟨j, r⟩ := jr
      rw [hl] at h
      dsimp only at h
      obtain ⟨hg1, hg2, hg3⟩ := ih j r hl
      by_cases h2 : dist2 p r < dist2 p a
      · rw [if_pos h2] at h
        simp only [Option.some.injEq, Prod.mk.injEq] at h
        obtain ⟨rfl, rfl⟩ := h
        refine ⟨by simpa using hg1, ?_, ?_⟩
        · intro m s hm
          cases m with
          | zero =>
            simp only [List.getElem?_cons_zero, Option.some.injEq] at hm
            subst hm
            exact le_of_lt h2
          | succ n =>
            simp only [List.getElem?_cons_succ] at hm
            exact hg2 n s hm
        · intro m hm s hs
          cases m with
          | zero =>
            simp only [List.getElem?_cons_zero, Option.some.injEq] at hs
            subst hs
            exact h2
          | succ n =>
            simp only [List.getElem?_cons_succ] at hs
            exact hg3 n (by omega) s hs
      · rw [if_neg h2] at h
        simp only [Option.some.injEq, Prod.mk.injEq] at h
        obtain ⟨rfl, rfl⟩ := h
        refine ⟨by simp, ?_, ?_⟩
        · intro m s hm
          cases m with
          | zero =>
            simp only [List.getElem?_cons_zero, Option.some.injEq] at hm
            subst hm
            exact le_refl _
          | succ n =>
            simp only [List.getElem?_cons_succ] at hm
            exact le_trans (not_lt.mp h2) (hg2 n s hm)
        · intro m hm s hs
          omega

lemma xyOf_update (p q : Pointer) : xyOf (p.update q) = xyOf p := rfl

lemma Pointer.update_x (p q : Pointer) : (p.update q).x = p.x := rfl

lemma Pointer.update_y (p q : Pointer) : (p.update q).y = p.y := rfl

lemma Pointer.update_oid (p q : Pointer) : (p.update q).oid = p.oid := rfl

lemma Pointer.update_button (p q : Pointer) : (p.update q).button = p.button := rfl

lemma dist2_congr {p p' q q' : Pointer} (hp : xyOf p = xyOf p') (hq : xyOf q = xyOf q') :
    dist2 p q = dist2 p' q' := by
  have h1 : p.x = p'.x := congrArg Prod.fst hp
  have h2 : p.y = p'.y := congrArg Prod.snd hp
  have h3 : q.x = q'.x := congrArg Prod.fst hq
  have h4 : q.y = q'.y := congrArg Prod.snd hq
  simp [dist2, h1, h2, h3, h4]

/-- The index chosen by the scan depends only on the positions involved. -/
lemma closestIdx_fst_congr : ∀ (ps ps' : List Pointer) {p p' : Pointer}, xyOf p = xyOf p' →
    ps.map xyOf = ps'.map xyOf →
    (closestIdx p ps).map Prod.fst = (closestIdx p' ps').map Prod.fst := by
  intro ps
  induction ps with
  | nil =>
    intro ps' p p' hp h
    have hnil : ps' = [] := by
      cases ps' with
      | nil => rfl
      | cons b m => simp at h
    subst hnil; rfl
  | cons a l ih =>
    intro ps' p p' hp h
    cases ps' with
    | nil => simp at h
    | cons b m =>
      simp only [List.map_cons, List.cons.injEq] at h
      obtain ⟨hab, hlm⟩ := h
      have htail := ih m hp hlm
      simp only [closestIdx]
      cases hl : closestIdx p l with
      | none =>
        have hm : closestIdx p' m = none := by
          rw [hl] at htail
          cases hm2 : closestIdx p' m with
          | none => rfl
          | some v => rw [hm2] at htail; simp at htail
        rw [hm]
        rfl
      | some jr =>
        obtain ⟨j, r⟩ := jr
        rw [hl] at htail
        cases hm2 : closestIdx p' m with
        | none => rw [hm2] at htail; simp at htail
        | some jr' =>
          obtain ⟨j', r'⟩ := jr'
          rw [hm2] at htail
          simp only [Option.map_some', Option.some.injEq] at htail
          subst htail
          have hr : l[j]? = some r := (closestIdx_spec p l j r hl).1
          have hr' : m[j]? = some r' := (closestIdx_spec p' m j r' hm2).1
          have hxy : xyOf r = xyOf r' := by
            have := congrArg (fun s => s[j]?) hlm
            simp only [List.getElem?_map, hr, hr', Option.map_some',
              Option.some.injEq] at this
            exact this
          have hc : dist2 p r = dist2 p' r' := dist2_congr hp hxy
          have ha : dist2 p a = dist2 p' b := dist2_congr hp hab
          dsimp only
          rw [hc, ha]
          by_cases h2 : dist2 p' r' < dist2 p' b
          · rw [if_pos h2, if_pos h2]
            rfl
          · rw [if_neg h2, if_neg h2]
            rfl

/-- Setting an index to the value it already holds is the identity. -/
lemma setSame {α : Type} : ∀ (l : List α) (i : Nat) (a : α), l[i]? = some a → l.set i a = l
  | [], _, _, h => by simp at h
  | b :: t, 0, a, h => by
      simp only [List.getElem?_cons_zero, Option.some.injEq] at h
      subst h
      rfl
  | b :: t, i + 1, a, h => by
      simp only [List.getElem?_cons_succ] at h
      simp [List.set, setSame t i a h]

/-- Rearrangement: removing an element found at an index is a permutation. -/
lemma perm_cons_eraseIdx {α : Type} : ∀ (l : List α) (j : Nat) (a : α),
    l[j]? = some a → l.Perm (a :: l.eraseIdx j)
  | [], _, _, h => by simp at h
  | b :: t, 0, a, h => by
      simp only [List.getElem?_cons_zero, Option.some.injEq] at h
      subst h
      simp
  | b :: t, j + 1, a, h => by
      simp only [List.getElem?_cons_succ] at h
      have ht := perm_cons_eraseIdx t j a h
      have h1 : (b :: t).Perm (b :: a :: t.eraseIdx j) := ht.cons b
      have h2 : (b :: a :: t.eraseIdx j).Perm (a :: b :: t.eraseIdx j) := List.Perm.swap a b _
      exact h1.trans h2

/-- Case analysis for one matching iteration: either nothing happens and no
match is logged, or the guard conditions of lines 283-289 all held and the
step rebases `live[i]`, erases the consumed predecessor and logs it. -/
lemma matchStep_cases (live prevRem : List Pointer) (i : Nat) :
    matchStep live prevRem i = (live, prevRem, none) ∨
    ∃ ci j closest, live[i]? = some ci ∧ getClosest ci prevRem = some (j, closest) ∧
      (getClosest closest live).map Prod.fst = some i ∧
      prevRem[j]? = some closest ∧
      matchStep live prevRem i =
        (live.set i (ci.update closest), prevRem.eraseIdx j, some (closest, prevRem)) := by
  cases h1 : live[i]? with
  | none => left; simp [matchStep, h1]
  | some ci =>
    cases h2 : getClosest ci prevRem with
    | none => left; simp [matchStep, h1, h2]
    | some jc =>
      obtain ⟨j, closest⟩ := jc
      by_cases h3 : (getClosest closest live).map Prod.fst = some i
      · right
        refine ⟨ci, j, closest, rfl, h2, h3, ?_, ?_⟩
        · exact (closestIdx_spec ci prevRem j closest
            ((getClosest_eq_closestIdx ci prevRem).symm.trans h2)).1
        · simp [matchStep, h1, h2, h3]
      · left; simp [matchStep, h1, h2, h3]

lemma matchStep_map {β : Type} (f : Pointer → β) (hf : ∀ p q, f (p.update q) = f p)
    (live prevRem : List Pointer) (i : Nat) :
    ((matchStep live prevRem i).1).map f = live.map f := by
  rcases matchStep_cases live prevRem i with h | ⟨ci, j, closest, h1, h2, h3, h4, h⟩
  · rw [h]
  · rw [h]
    show (live.set i (ci.update closest)).map f = live.map f
    rw [List.map_set, hf]
    exact setSame _ _ _ (by simp [h1])

lemma matchGo_succ (live prevRem : List Pointer) (i n : Nat) :
    matchGo live prevRem i (n + 1) =
      ((matchGo (matchStep live prevRem i).1 (matchStep live prevRem i).2.1 (i + 1) n).1,
       (matchGo (matchStep live prevRem i).1 (matchStep live prevRem i).2.1 (i + 1) n).2.1,
       (matchStep live prevRem i).2.2 ::
         (matchGo (matchStep live prevRem i).1 (matchStep live prevRem i).2.1 (i + 1) n).2.2) :=
  rfl

/-- The matching loop only rewrites fields that `Pointer.update` rewrites:
any projection unchanged by `Pointer.update` is unchanged across the loop. -/
lemma matchGo_map {β : Type} (f : Pointer → β) (hf : ∀ p q, f (p.update q) = f p) :
    ∀ (n : Nat) (live prevRem : List Pointer) (i : Nat),
    ((matchGo live prevRem i n).1).map f = live.map f := by
  intro n
  induction n with
  | zero => intro live prevRem i; rfl
  | succ n ih =>
    intro live prevRem i
    rw [matchGo_succ]
    exact (ih _ _ _).trans (matchStep_map f hf live prevRem i)

lemma matchGo_log_length : ∀ (n : Nat) (live prevRem : List Pointer) (i : Nat),
    ((matchGo live prevRem i n).2.2).length = n := by
  intro n
  induction n with
  | zero => intro live prevRem i; rfl
  | succ n ih =>
    intro live prevRem i
    rw [matchGo_succ]
    simp [ih]

/-- Indices outside the iteration range are untouched by the matching loop. -/
lemma matchGo_untouched : ∀ (n : Nat) (live prevRem : List Pointer) (i m : Nat),
    (m < i ∨ i + n ≤ m) → ((matchGo live prevRem i n).1)[m]? = live[m]? := by
  intro n
  induction n with
  | zero => intro live prevRem i m hm; rfl
  | succ n ih =>
    intro live prevRem i m hm
    rw [matchGo_succ]
    have hstep : ((matchStep live prevRem i).1)[m]? = live[m]? := by
      rcases matchStep_cases live prevRem i with h | ⟨ci, j, closest, h1, h2, h3, h4, h⟩
      · rw [h]
      · rw [h]
        exact List.getElem?_set_ne (by omega)
    rw [ih _ _ _ _ (by omega), hstep]

/-- A loop iteration that logged no match leaves its index unchanged. -/
lemma matchGo_log_none : ∀ (n : Nat) (live prevRem : List Pointer) (i k : Nat),
    ((matchGo live prevRem i n).2.2)[k]? = some none →
    ((matchGo live prevRem i n).1)[i + k]? = live[i + k]? := by
  intro n
  induction n with
  | zero => intro live prevRem i k h; simp [matchGo] at h
  | succ n ih =>
    intro live prevRem i k h
    rw [matchGo_succ] at h ⊢
    cases k with
    | zero =>
      simp only [List.getElem?_cons_zero, Option.some.injEq] at h
      have hstep : matchStep live prevRem i = (live, prevRem, none) := by
        rcases matchStep_cases live prevRem i with h0 | ⟨ci, j, closest, _, _, _, _, h0⟩
        · exact h0
        · rw [h0] at h; simp at h
      rw [hstep]
      exact matchGo_untouched n live prevRem (i + 1) (i + 0) (by omega)
    | succ k' =>
      simp only [List.getElem?_cons_succ] at h
      have := ih _ _ (i + 1) k' h
      have hstep : ((matchStep live prevRem i).1)[i + 1 + k']? = live[i + 1 + k']? := by
        rcases matchStep_cases live prevRem i with h0 | ⟨ci, j, closest, h1, h2, h3, h4, h0⟩
        · rw [h0]
        · rw [h0]
          exact List.getElem?_set_ne (by omega)
      rw [show i + (k' + 1) = i + 1 + k' from by omega, this, hstep]

/-- A loop iteration that logged a match `(q, rem)` at relative index `k`
rebased `live[i+k]` with `q`; `q` was chosen by `getClosest` from `rem`, the
previous buffer at the moment of the match, and the mutual check held against
the live current array, whose positions equal those of the entry array. -/
lemma matchGo_log_some : ∀ (n : Nat) (live prevRem : List Pointer) (i k : Nat)
    (q : Pointer) (rem : List Pointer),
    ((matchGo live prevRem i n).2.2)[k]? = some (some (q, rem)) →
    ∃ ci j, live[i + k]? = some ci ∧
      getClosest ci rem = some (j, q) ∧
      rem[j]? = some q ∧
      (getClosest q live).map Prod.fst = some (i + k) ∧
      ((matchGo live prevRem i n).1)[i + k]? = some (ci.update q) := by
  intro n
  induction n with
  | zero => intro live prevRem i k q rem h; simp [matchGo] at h
  | succ n ih =>
    intro live prevRem i k q rem h
    rw [matchGo_succ] at h ⊢
    cases k with
    | zero =>
      simp only [List.getElem?_cons_zero, Option.some.injEq] at h
      rcases matchStep_cases live prevRem i with h0 | ⟨ci, j, closest, h1, h2, h3, h4, h0⟩
      · rw [h0] at h; simp at h
      · rw [h0] at h
        simp only [Option.some.injEq, Prod.mk.injEq] at h
        obtain ⟨rfl, rfl⟩ := h
        refine ⟨ci, j, by simpa using h1, h2, h4, by simpa using h3, ?_⟩
        rw [h0]
        have huntouched := matchGo_untouched n (live.set i (ci.update closest))
          (prevRem.eraseIdx j) (i + 1) (i + 0) (by omega)
        dsimp only
        rw [huntouched]
        have hlen : i < live.length := by
          rcases List.getElem?_eq_some.mp h1 with ⟨hlt, _⟩
          exact hlt
        rw [show i + 0 = i from by omega]
        exact List.getElem?_set_self hlen
    | succ k' =>
      simp only [List.getElem?_cons_succ] at h
      obtain ⟨ci, j, g1, g2, g3, g4, g5⟩ := ih _ _ (i + 1) k' q rem h
      have hstepget : ((matchStep live prevRem i).1)[i + 1 + k']? = live[i + 1 + k']? := by
        rcases matchStep_cases live prevRem i with h0 | ⟨ci', j', closest', h1, h2, h3, h4, h0⟩
        · rw [h0]
        · rw [h0]
          exact List.getElem?_set_ne (by omega)
      have hxy : ((matchStep live prevRem i).1).map xyOf = live.map xyOf :=
        matchStep_map xyOf (fun p q => rfl) live prevRem i
      have g4' : (getClosest q live).map Prod.fst = some (i + 1 + k') := by
        rw [getClosest_eq_closestIdx]
        rw [getClosest_eq_closestIdx] at g4
        rw [closestIdx_fst_congr live (matchStep live prevRem i).1 rfl hxy.symm]
        exact g4
      refine ⟨ci, j, ?_, g2, g3, ?_, ?_⟩
      · rw [show i + (k' + 1) = i + 1 + k' from by omega, ← hstepget]
        exact g1
      · rw [show i + (k' + 1) = i + 1 + k' from by omega]
        exact g4'
      · rw [show i + (k' + 1) = i + 1 + k' from by omega]
        exact g5

/-- Bookkeeping of the previous buffer: what is left over plus what was
consumed is a permutation of what the loop started from. -/
lemma matchGo_perm : ∀ (n : Nat) (live prevRem : List Pointer) (i : Nat),
    ((matchGo live prevRem i n).2.1 ++ consumed ((matchGo live prevRem i n).2.2)).Perm
      prevRem := by
  intro n
  induction n with
  | zero => intro live prevRem i; simp [matchGo, consumed]
  | succ n ih =>
    intro live prevRem i
    rw [matchGo_succ]
    rcases matchStep_cases live prevRem i with h0 | ⟨ci, j, closest, h1, h2, h3, h4, h0⟩
    · rw [h0]
      simpa [consumed] using ih live prevRem (i + 1)
    · rw [h0]
      dsimp only
      have hcons : consumed (some (closest, prevRem) ::
          (matchGo (live.set i (ci.update closest)) (prevRem.eraseIdx j) (i + 1) n).2.2) =
          closest :: consumed ((matchGo (live.set i (ci.update closest))
            (prevRem.eraseIdx j) (i + 1) n).2.2) := by
        simp [consumed]
      rw [hcons]
      exact List.perm_middle.trans
        (((ih _ _ (i + 1)).cons closest).trans (perm_cons_eraseIdx prevRem j closest h4).symm)

lemma updateFull_eq (arr : PointerArray) (event : RawEvent) (type : String)
    (remove : Bool) (rect : Rect) (oid : Nat) :
    arr.updateFull event type remove rect oid =
      ({ current := (matchLoop (capturedContacts event type remove rect oid) arr.current).1,
         previous := [],
         removed :=
           (matchLoop (capturedContacts event type remove rect oid) arr.current).2.1.reverse },
       (matchLoop (capturedContacts event type remove rect oid) arr.current).2.2,
       oid + (capturedContacts event type remove rect oid).length) := rfl

lemma update_eq (arr : PointerArray) (event : RawEvent) (type : String)
    (remove : Bool) (rect : Rect) (oid : Nat) :
    arr.update event type remove rect oid =
      { current := (matchLoop (capturedContacts event type remove rect oid) arr.current).1,
        previous := [],
        removed :=
          (matchLoop (capturedContacts event type remove rect oid) arr.current).2.1.reverse } :=
  rfl

/-- Every contact built by the capture loop has start equal to its position,
zero movement and distance, a fresh allocation tag, and the button data
derived from the event bitmask by the source's if-chain. -/
lemma captureGo_mem (event : RawEvent) (type pointerType : String) (rect : Rect) :
    ∀ (ts : List Touch) (id : Int) (oid : Nat) (c : Pointer),
    c ∈ captureGo event type pointerType rect ts id oid →
    c.startX = c.x ∧ c.startY = c.y ∧ c.movementX = 0 ∧ c.movementY = 0 ∧
    c.distanceX = 0 ∧ c.distanceY = 0 ∧ oid ≤ c.oid ∧ c.buttons = event.buttons ∧
    c.button = (if event.buttons = 1 ∨ event.buttons = 3 ∨ event.buttons = 5 ∨
        event.buttons = 7 then 1
      else if event.buttons = 2 ∨ event.buttons = 6 then 2
      else if event.buttons = 4 then 3 else -1) := by
  intro ts
  induction ts with
  | nil => intro id oid c h; simp [captureGo] at h
  | cons t ts ih =>
    intro id oid c h
    simp only [captureGo] at h
    by_cases ht : (t.inTarget || event.touches.isNone) = true
    · rw [if_pos ht] at h
      rcases List.mem_cons.mp h with rfl | h2
      · exact ⟨rfl, rfl, rfl, rfl, rfl, rfl, le_refl _, rfl, rfl⟩
      · obtain ⟨a1, a2, a3, a4, a5, a6, a7, a8, a9⟩ := ih (id + 1) (oid + 1) c h2
        exact ⟨a1, a2, a3, a4, a5, a6, by omega, a8, a9⟩
    · rw [if_neg ht] at h
      exact ih id oid c h

lemma capturedContacts_mem (event : RawEvent) (type : String) (remove : Bool) (rect : Rect)
    (oid : Nat) (c : Pointer) (hc : c ∈ capturedContacts event type remove rect oid) :
    c.startX = c.x ∧ c.startY = c.y ∧ c.movementX = 0 ∧ c.movementY = 0 ∧
    c.distanceX = 0 ∧ c.distanceY = 0 ∧ oid ≤ c.oid ∧ c.buttons = event.buttons ∧
    c.button = (if event.buttons = 1 ∨ event.buttons = 3 ∨ event.buttons = 5 ∨
        event.buttons = 7 then 1
      else if event.buttons = 2 ∨ event.buttons = 6 then 2
      else if event.buttons = 4 then 3 else -1) := by
  by_cases hr : remove
  · simp [capturedContacts, hr] at hc
  · rw [capturedContacts, if_neg hr] at hc
    exact captureGo_mem event type _ rect event.samples 0 oid c hc

/-- A contact of the post-matching current array agrees, on every projection
that `Pointer.update` leaves alone, with some contact of the captured array. -/
lemma matchGo_mem_proj {β : Type} (f : Pointer → β) (hf : ∀ p q, f (p.update q) = f p)
    (n : Nat) (live prevRem : List Pointer) (i : Nat) (c : Pointer)
    (hc : c ∈ (matchGo live prevRem i n).1) : ∃ c₀ ∈ live, f c₀ = f c := by
  have hmap := matchGo_map f hf n live prevRem i
  have hmem : f c ∈ live.map f := by
    rw [← hmap]
    exact List.mem_map_of_mem f hc
  rcases List.mem_map.mp hmem with ⟨c₀, hmem0, heq⟩
  exact ⟨c₀, hmem0, heq⟩

lemma dispatch_foldl_log {α : Type} (eff : α → Listeners α → Listeners α) :
    ∀ (array : List α) (ls : Listeners α) (acc : List α),
    (array.foldl (fun acc h => (eff h acc.1, acc.2 ++ [h])) (ls, acc)).2 = acc ++ array := by
  intro array
  induction array with
  | nil => intro ls acc; simp
  | cons a l ih =>
    intro ls acc
    rw [List.foldl_cons]
    rw [ih]
    simp

lemma dispatchEvent_log {α : Type} (eff : α → Listeners α → Listeners α)
    (ls : Listeners α) (type : String) :
    (dispatchEvent eff ls type).2 = ls type := by
  simpa using dispatch_foldl_log eff (ls type) ls []

/-- C1: a pairing accepted by the matching round is mutually nearest: the
consumed predecessor `q` is the contact that `getClosest` selects from the
previous buffer `rem` as it stood at that moment, and `getClosest` run from
`q` over all of this frame's new contacts selects exactly the new contact that
was paired.  In particular, with previous contacts at (0,0) (identity 100) and
(10,0) (identity 200) and new samples at (1,0) and (9,0), the round pairs
(0,0) with (1,0) and (10,0) with (9,0) — identities land uncrossed. -/
theorem matcher_mutual_nearest :
    (∀ (cur prev : List Pointer) (k : Nat) (q : Pointer) (rem : List Pointer),
      ((matchLoop cur prev).2.2)[k]? = some (some (q, rem)) →
      (∃ ci j, cur[k]? = some ci ∧ getClosest ci rem = some (j, q)) ∧
      (getClosest q cur).map Prod.fst = some k) ∧
    ((arrAB.update evMove "pointermove" false rect0 2).current.map
      (fun c => (c.pointerID, c.x)) = [(100, 1), (200, 9)]) := by
  constructor
  · intro cur prev k q rem hlog
    obtain ⟨ci, j, g1, g2, g3, g4, g5⟩ :=
      matchGo_log_some cur.length cur prev 0 k q rem (by simpa [matchLoop] using hlog)
    rw [Nat.zero_add] at g1 g4
    exact ⟨⟨ci, j, g1, g2⟩, g4⟩
  · norm_num [arrAB, evMove, rect0, pA, pB, PointerArray.update, PointerArray.updateFull,
      capturedContacts, captureGo, RawEvent.samples, matchLoop, matchGo, matchStep,
      getClosest, closestAux, dist2, Pointer.update]

/-- Witness for C1 at the concrete scenario: the first accepted pairing
consumed the previous contact at (0,0) out of the full previous buffer, and
that contact's closest among the new contacts is the new contact at index 0. -/
theorem matcher_mutual_nearest_witness :
    (∃ ci j, curMove[0]? = some ci ∧ getClosest ci [pA, pB] = some (j, pA)) ∧
    (getClosest pA curMove).map Prod.fst = some 0 :=
  (matcher_mutual_nearest.1 curMove [pA, pB] 0 pA [pA, pB]
    (by norm_num [curMove, evMove, rect0, pA, pB, capturedContacts, captureGo,
      RawEvent.samples, matchLoop, matchGo, matchStep, getClosest, closestAux,
      dist2, Pointer.update]))

/-- C2 fails on the code: with one previous contact of identity 0 at (10,0)
and three new samples at (100,100), (200,200) and (10,0), only the third new
contact matches and inherits identity 0, while the first keeps its provisional
identity 0 — the frame carries pointerID 0 twice. -/
theorem update_duplicate_identity :
    ((arrSingle.update evThree "pointermove" false rect0 1).current.map
      Pointer.pointerID) = [0, 1, 0] ∧
    ¬ ((arrSingle.update evThree "pointermove" false rect0 1).current.map
      Pointer.pointerID).Nodup := by
  have h : ((arrSingle.update evThree "pointermove" false rect0 1).current.map
      Pointer.pointerID) = [0, 1, 0] := by
    norm_num [arrSingle, evThree, rect0, pSingle, PointerArray.update, PointerArray.updateFull,
      capturedContacts, captureGo, RawEvent.samples, matchLoop, matchGo, matchStep,
      getClosest, closestAux, dist2, Pointer.update]
  refine ⟨h, ?_⟩
  rw [h]
  decide

/-- C3: after any update the previous buffer is empty; the removed collection
together with the consumed predecessors is a permutation of the prior frame's
contacts (removed = previous minus consumed, as multisets); and, provided the
allocation counter is fresh (every prior contact's object tag is below it), no
object is both a current contact and a removed contact. -/
theorem update_removed_exact (arr : PointerArray) (event : RawEvent) (type : String)
    (remove : Bool) (rect : Rect) (oid : Nat)
    (hfresh : ∀ p ∈ arr.current, p.oid < oid) :
    (arr.update event type remove rect oid).previous = [] ∧
    ((arr.update event type remove rect oid).removed ++
      consumed (arr.updateFull event type remove rect oid).2.1).Perm arr.current ∧
    (∀ c ∈ (arr.update event type remove rect oid).current,
      ∀ r ∈ (arr.update event type remove rect oid).removed, c.oid ≠ r.oid) := by
  have hperm := matchGo_perm (capturedContacts event type remove rect oid).length
    (capturedContacts event type remove rect oid) arr.current 0
  refine ⟨rfl, ?_, ?_⟩
  · rw [update_eq, updateFull_eq]
    dsimp only
    exact ((List.reverse_perm _).append_right _).trans hperm
  · intro c hc r hr
    rw [update_eq] at hc hr
    dsimp only at hc hr
    obtain ⟨c₀, hm0, heq⟩ := matchGo_mem_proj Pointer.oid (fun p q => rfl)
      (capturedContacts event type remove rect oid).length
      (capturedContacts event type remove rect oid) arr.current 0 c
      (by simpa [matchLoop] using hc)
    have hc0 : oid ≤ c₀.oid :=
      (capturedContacts_mem event type remove rect oid c₀ hm0).2.2.2.2.2.2.1
    have hrprev : r ∈ arr.current := by
      have hr1 : r ∈ (matchLoop (capturedContacts event type remove rect oid)
          arr.current).2.1 := List.mem_reverse.mp hr
      exact hperm.subset (List.mem_append_left _ hr1)
    have hrlt := hfresh r hrprev
    have hceq : c₀.oid = c.oid := heq
    omega

/-- Witness for C3: the three-contacts-versus-one scenario satisfies the
freshness hypothesis with counter 1, so the conclusion holds there. -/
theorem update_removed_exact_witness :
    (arrSingle.update evThree "pointermove" false rect0 1).previous = [] ∧
    ((arrSingle.update evThree "pointermove" false rect0 1).removed ++
      consumed (arrSingle.updateFull evThree "pointermove" false rect0 1).2.1).Perm
      arrSingle.current ∧
    (∀ c ∈ (arrSingle.update evThree "pointermove" false rect0 1).current,
      ∀ r ∈ (arrSingle.update evThree "pointermove" false rect0 1).removed, c.oid ≠ r.oid) :=
  update_removed_exact arrSingle evThree "pointermove" false rect0 1
    (by norm_num [arrSingle, pSingle])

/-- C4: a contact matched with predecessor `q` ends the frame with movement
equal to position minus `q`'s position, origin copied from `q`, and distance
equal to position minus that origin; a contact whose index logged no match
keeps its creation state: zero movement and distance, origin equal to its
position. -/
theorem update_kinematics (arr : PointerArray) (event : RawEvent) (type : String)
    (remove : Bool) (rect : Rect) (oid : Nat) (k : Nat) :
    (∀ (q : Pointer) (rem : List Pointer),
      ((arr.updateFull event type remove rect oid).2.1)[k]? = some (some (q, rem)) →
      ∃ c, ((arr.update event type remove rect oid).current)[k]? = some c ∧
        c.movementX = c.x - q.x ∧ c.movementY = c.y - q.y ∧
        c.startX = q.startX ∧ c.startY = q.startY ∧
        c.distanceX = c.x - c.startX ∧ c.distanceY = c.y - c.startY) ∧
    (((arr.updateFull event type remove rect oid).2.1)[k]? = some none →
      ∃ c, ((arr.update event type remove rect oid).current)[k]? = some c ∧
        c.movementX = 0 ∧ c.movementY = 0 ∧ c.distanceX = 0 ∧ c.distanceY = 0 ∧
        c.startX = c.x ∧ c.startY = c.y) := by
  constructor
  · intro q rem hlog
    rw [updateFull_eq] at hlog
    dsimp only at hlog
    obtain ⟨ci, j, g1, g2, g3, g4, g5⟩ :=
      matchGo_log_some (capturedContacts event type remove rect oid).length
        (capturedContacts event type remove rect oid) arr.current 0 k q rem
        (by simpa [matchLoop] using hlog)
    refine ⟨ci.update q, ?_, rfl, rfl, rfl, rfl, rfl, rfl⟩
    rw [update_eq]
    dsimp only
    simpa [matchLoop] using g5
  · intro hlog
    rw [updateFull_eq] at hlog
    dsimp only at hlog
    have hlog' : ((matchGo (capturedContacts event type remove rect oid) arr.current 0
        (capturedContacts event type remove rect oid).length).2.2)[k]? = some none := by
      simpa [matchLoop] using hlog
    have hnone := matchGo_log_none (capturedContacts event type remove rect oid).length
      (capturedContacts event type remove rect oid) arr.current 0 k hlog'
    have hk : k < (capturedContacts event type remove rect oid).length := by
      have hlen := matchGo_log_length (capturedContacts event type remove rect oid).length
        (capturedContacts event type remove rect oid) arr.current 0
      rcases List.getElem?_eq_some.mp hlog' with ⟨hlt, _⟩
      rw [hlen] at hlt
      exact hlt
    have hcap : ((capturedContacts event type remove rect oid))[k]? =
        some ((capturedContacts event type remove rect oid))[k] :=
      List.getElem?_eq_getElem hk
    have hmem : ((capturedContacts event type remove rect oid))[k] ∈
        capturedContacts event type remove rect oid := List.getElem_mem hk
    obtain ⟨a1, a2, a3, a4, a5, a6, a7, a8, a9⟩ :=
      capturedContacts_mem event type remove rect oid _ hmem
    refine ⟨(capturedContacts event type remove rect oid)[k], ?_, a3, a4, a5, a6, a1, a2⟩
    rw [update_eq]
    dsimp only
    rw [show (matchLoop (capturedContacts event type remove rect oid) arr.current).1 =
      (matchGo (capturedContacts event type remove rect oid) arr.current 0
        (capturedContacts event type remove rect oid).length).1 from rfl]
    rw [show (0 : Nat) + k = k from by omega] at hnone
    rw [hnone]
    exact hcap

/-- Witness for C4 at the concrete scenario: index 0 was matched with the
previous contact at (0,0), and the rebased contact satisfies the kinematic
equations. -/
theorem update_kinematics_witness :
    ∃ c, ((arrAB.update evMove "pointermove" false rect0 2).current)[0]? = some c ∧
      c.movementX = c.x - pA.x ∧ c.movementY = c.y - pA.y ∧
      c.startX = pA.startX ∧ c.startY = pA.startY ∧
      c.distanceX = c.x - c.startX ∧ c.distanceY = c.y - c.startY :=
  (update_kinematics arrAB evMove "pointermove" false rect0 2 0).1 pA [pA, pB]
    (by norm_num [arrAB, evMove, rect0, pA, pB, PointerArray.updateFull,
      capturedContacts, captureGo, RawEvent.samples, matchLoop, matchGo, matchStep,
      getClosest, closestAux, dist2, Pointer.update])

/-- C5 fails on the code: `clone()` copies `movementX` but writes the stray
property `movementXY` instead of `movementY` (line 203), so a pointer with
`movementY = 5` clones to one with `movementY = 0` while all listed fields are
copied. -/
theorem clone_movementY_not_copied :
    pMoved.movementY = 5 ∧ (pMoved.clone 1).movementY = 0 ∧
    (pMoved.clone 1).movementX = pMoved.movementX ∧
    (pMoved.clone 1).x = pMoved.x ∧ (pMoved.clone 1).distanceY = pMoved.distanceY :=
  ⟨rfl, rfl, rfl, rfl, rfl⟩

/-- C6: an update with the explicit remove flag set captures no samples: the
current collection comes out empty, the previous buffer is emptied, and the
removed collection is exactly the prior frame's contacts (in reverse order,
hence the same members). -/
theorem update_remove_flag (arr : PointerArray) (event : RawEvent) (type : String)
    (rect : Rect) (oid : Nat) :
    (arr.update event type true rect oid).current = [] ∧
    (arr.update event type true rect oid).removed = arr.current.reverse ∧
    (arr.update event type true rect oid).previous = [] ∧
    (∀ p : Pointer, p ∈ (arr.update event type true rect oid).removed ↔ p ∈ arr.current) := by
  refine ⟨rfl, rfl, rfl, ?_⟩
  intro p
  show p ∈ arr.current.reverse ↔ p ∈ arr.current
  exact List.mem_reverse

/-- C7: every contact of the frame produced by an update carries the event's
raw bitmask, and its ordinal button follows the source partition, with the
source encoding primary = 1, secondary = 2, auxiliary = 3 and none = -1:
bitmask 1, 3, 5, 7 give 1; 2 and 6 give 2; 4 gives 3; anything else
(including 0) leaves -1. -/
theorem update_button_ordinal (arr : PointerArray) (event : RawEvent) (type : String)
    (remove : Bool) (rect : Rect) (oid : Nat) (c : Pointer)
    (hc : c ∈ (arr.update event type remove rect oid).current) :
    c.buttons = event.buttons ∧
    c.button = (if event.buttons = 1 ∨ event.buttons = 3 ∨ event.buttons = 5 ∨
        event.buttons = 7 then 1
      else if event.buttons = 2 ∨ event.buttons = 6 then 2
      else if event.buttons = 4 then 3 else -1) := by
  rw [update_eq] at hc
  dsimp only at hc
  obtain ⟨c₀, hmem, heq⟩ := matchGo_mem_proj (fun p => (p.button, p.buttons))
    (fun p q => rfl) (capturedContacts event type remove rect oid).length
    (capturedContacts event type remove rect oid) arr.current 0 c
    (by simpa [matchLoop] using hc)
  obtain ⟨_, _, _, _, _, _, _, h8, h9⟩ :=
    capturedContacts_mem event type remove rect oid c₀ hmem
  have hb : c₀.button = c.button := congrArg Prod.fst heq
  have hbs : c₀.buttons = c.buttons := congrArg Prod.snd heq
  constructor
  · rw [← hbs]; exact h8
  · rw [← hb]; exact h9

/-- Witness for C7: capturing a mouse event with bitmask 1 yields the contact
`cMouse`, whose ordinal button is 1 (primary). -/
theorem update_button_ordinal_witness :
    cMouse.buttons = evMouse.buttons ∧
    cMouse.button = (if evMouse.buttons = 1 ∨ evMouse.buttons = 3 ∨ evMouse.buttons = 5 ∨
        evMouse.buttons = 7 then 1
      else if evMouse.buttons = 2 ∨ evMouse.buttons = 6 then 2
      else if evMouse.buttons = 4 then 3 else -1) :=
  update_button_ordinal arrEmpty evMouse "pointerdown" false rect0 0 cMouse
    (by norm_num [arrEmpty, evMouse, rect0, cMouse, PointerArray.update,
      PointerArray.updateFull, capturedContacts, captureGo, RawEvent.samples,
      matchLoop, matchGo, matchStep, getClosest, closestAux, dist2])

/-- C8: on a nonempty candidate list, `getClosest` returns the entry at the
first index achieving the minimum distance — every earlier entry is strictly
farther, so among equidistant minima the first encountered in iteration order
wins.  Determinism holds because `getClosest` is a pure function of its
arguments. -/
theorem getClosest_first_min (p : Pointer) (ps : List Pointer) (hne : ps ≠ []) :
    ∃ k q, getClosest p ps = some (k, q) ∧ ps[k]? = some q ∧
      (∀ (m : Nat) (r : Pointer), ps[m]? = some r → dist2 p q ≤ dist2 p r) ∧
      (∀ (m : Nat), m < k → ∀ (r : Pointer), ps[m]? = some r → dist2 p q < dist2 p r) := by
  rw [getClosest_eq_closestIdx]
  cases hc : closestIdx p ps with
  | none => exact absurd (closestIdx_eq_none hc) hne
  | some kq =>
    obtain ⟨k, q⟩ := kq
    obtain ⟨a, b, c⟩ := closestIdx_spec p ps k q hc
    exact ⟨k, q, rfl, a, b, c⟩

/-- Witness for C8: the candidates at (3,4) and (5,0) are both at squared
distance 25 from the origin query; the scan returns the first. -/
theorem getClosest_first_min_witness :
    (∃ k q, getClosest pQuery [pTie1, pTie2] = some (k, q) ∧ [pTie1, pTie2][k]? = some q ∧
      (∀ (m : Nat) (r : Pointer), [pTie1, pTie2][m]? = some r →
        dist2 pQuery q ≤ dist2 pQuery r) ∧
      (∀ (m : Nat), m < k → ∀ (r : Pointer), [pTie1, pTie2][m]? = some r →
        dist2 pQuery q < dist2 pQuery r)) ∧
    getClosest pQuery [pTie1, pTie2] = some (0, pTie1) ∧
    dist2 pQuery pTie1 = dist2 pQuery pTie2 :=
  ⟨getClosest_first_min pQuery [pTie1, pTie2] (by simp),
   by norm_num [getClosest, closestAux, dist2, pQuery, pTie1, pTie2],
   by norm_num [dist2, pQuery, pTie1, pTie2]⟩

/-- C9: one dispatch pass invokes exactly the handlers registered for the
event name when the pass begins, in registration order (the log equals the
registry list, which registration keeps in insertion order); a handler that
was not registered at that moment — such as one added by a running handler —
is not invoked during the pass. -/
theorem dispatch_snapshot {α : Type} (eff : α → Listeners α → Listeners α)
    (ls : Listeners α) (type : String) :
    (dispatchEvent eff ls type).2 = ls type ∧
    (∀ h : α, h ∉ ls type → h ∉ (dispatchEvent eff ls type).2) := by
  refine ⟨dispatchEvent_log eff ls type, ?_⟩
  intro h hh
  rw [dispatchEvent_log eff ls type]
  exact hh

/-- Witness for C9: with one handler (0) registered, whose effect registers
handler 5, the pass's log is the original singleton and 5 is not invoked. -/
theorem dispatch_snapshot_witness :
    (dispatchEvent effW lsW "pointermove").2 = lsW "pointermove" ∧
    (5 : Nat) ∉ (dispatchEvent effW lsW "pointermove").2 :=
  ⟨(dispatch_snapshot effW lsW "pointermove").1,
   (dispatch_snapshot effW lsW "pointermove").2 5
     (by norm_num [lsW, addEventListener, emptyListeners])⟩

/-- C10: registering a listener already present for the event name leaves the
registry unchanged; registration preserves duplicate-freedom of every
per-name list; and a dispatch pass from a duplicate-free list invokes each
handler at most once (its log is duplicate-free). -/
theorem addEventListener_idem {α : Type} [DecidableEq α]
    (eff : α → Listeners α → Listeners α) (ls : Listeners α) (type t : String) (h : α) :
    (h ∈ ls type → addEventListener ls type h = ls) ∧
    ((ls t).Nodup → (addEventListener ls type h t).Nodup) ∧
    ((ls type).Nodup → (dispatchEvent eff ls type).2.Nodup) := by
  refine ⟨?_, ?_, ?_⟩
  · intro hmem
    funext t'
    show (if t' = type then (if h ∈ ls type then ls type else ls type ++ [h]) else ls t') = ls t'
    by_cases ht : t' = type
    · rw [if_pos ht, if_pos hmem, ht]
    · rw [if_neg ht]
  · intro hnd
    show (if t = type then (if h ∈ ls type then ls type else ls type ++ [h]) else ls t).Nodup
    by_cases ht : t = type
    · rw [if_pos ht]
      rw [ht] at hnd
      by_cases hmem : h ∈ ls type
      · rw [if_pos hmem]; exact hnd
      · rw [if_neg hmem]
        simp [List.nodup_append, hnd, hmem]
    · rw [if_neg ht]; exact hnd
  · intro hnd
    rw [dispatchEvent_log]
    exact hnd

/-- Witness for C10: re-registering handler 0 leaves the witness registry
unchanged, and the dispatch log from it is duplicate-free. -/
theorem addEventListener_idem_witness :
    addEventListener lsW "pointermove" 0 = lsW ∧
    (dispatchEvent effW lsW "pointermove").2.Nodup :=
  ⟨(addEventListener_idem effW lsW "pointermove" "pointermove" 0).1
     (by norm_num [lsW, addEventListener, emptyListeners]),
   (addEventListener_idem effW lsW "pointermove" "pointermove" 0).2.2
     (by norm_num [lsW, addEventListener, emptyListeners])⟩

end PointerEventsSpec
